import Mathlib

/-!
Verification of the SignalCraft core (src/app.js, with the variant in
src/unnamed/part_000) against its natural-language specification.

The JavaScript core is shallowly embedded: JS numbers are modelled as exact
rationals (ℚ has no NaN and no rounding, matching the exact-arithmetic
idealization stated by the spec), integer-valued quantities (tick counters, share
counts, levels) as ℕ/ℤ, and every call to Math.random() is replaced by an
explicit stream of draws `g : ℕ → ℚ`; a function that draws k times returns
the shifted stream `fun n => g (n + k)` alongside the new state.  UI and DOM
work (showFeedback, canvas drawing, localStorage) has no effect on the core
state fields and is dropped; the day/screen bookkeeping is out of the
modelled core except for the `canTrade` gate that buy/sell consult.
-/

namespace SignalCraft

/-- The four hidden market regimes (src/app.js lines 18-23). -/
inductive Regime where
  | RANGE
  | TREND_UP
  | TREND_DOWN
  | VOLATILITY
deriving DecidableEq

/-- The mutable session state (src/app.js lines 26-58), restricted to the
fields the core logic reads or writes.  `regimeDuration` is an integer
because it is always produced by Math.floor. -/
structure GameState where
  balance : ℚ
  shares : ℤ
  avgCost : ℚ
  level : ℕ
  xp : ℚ
  nextLevelXp : ℚ
  prices : List ℚ
  currentPrice : ℚ
  tickCount : ℕ
  currentRegime : Regime
  regimeTimer : ℕ
  regimeDuration : ℤ
  baseValue : ℚ
  volatility : ℚ
  autoStrategyActive : Bool
  lastStrategyAction : ℕ
  canTrade : Bool
deriving DecidableEq

/-- CONFIG.HISTORY_SIZE (src/app.js line 10). -/
def HISTORY_SIZE : ℕ := 100

/-- The initial state literal (src/app.js lines 26-58). -/
def initialState : GameState where
  balance := 100
  shares := 0
  avgCost := 0
  level := 1
  xp := 0
  nextLevelXp := 1000
  prices := []
  currentPrice := 100
  tickCount := 0
  currentRegime := Regime.RANGE
  regimeTimer := 0
  regimeDuration := 200
  baseValue := 100
  volatility := 0.5
  autoStrategyActive := false
  lastStrategyAction := 0
  canTrade := false

/-- The helper `rand(min, max) = Math.random() * (max - min) + min`
(src/app.js line 97), with the uniform draw `r` passed explicitly. -/
def rand (r mn mx : ℚ) : ℚ := r * (mx - mn) + mn

/-- The cumulative-threshold regime selection inlined in switchRegime
(src/app.js lines 121-125): one uniform draw compared against 0.4, 0.65, 0.9. -/
def pickRegime (randVal : ℚ) : Regime :=
  if randVal < 0.4 then Regime.RANGE
  else if randVal < 0.65 then Regime.TREND_UP
  else if randVal < 0.9 then Regime.TREND_DOWN
  else Regime.VOLATILITY

/-- switchRegime (src/app.js lines 111-139).  Consumes two draws: one for the
cumulative-threshold regime selection, one for the new duration. -/
def switchRegime (g : ℕ → ℚ) (s : GameState) : GameState × (ℕ → ℚ) :=
  let newRegime : Regime := pickRegime (g 0)
  let s1 : GameState :=
    { s with currentRegime := newRegime,
             regimeDuration := ⌊rand (g 1) 100 300⌋,
             regimeTimer := 0 }
  let s2 : GameState :=
    if s1.currentRegime = Regime.RANGE then
      { s1 with baseValue := s1.currentPrice, volatility := 0.3 }
    else if s1.currentRegime = Regime.VOLATILITY then
      { s1 with volatility := 1.5 }
    else
      { s1 with volatility := 0.5 }
  (s2, fun n => g (n + 2))

/-- The price floor clamp `if (state.currentPrice < 1) state.currentPrice = 1`
(src/app.js line 170). -/
def clampFloor (p : ℚ) : ℚ := if p < 1 then 1 else p

/-- The increment-and-clamp half of updateMarketLogic (src/app.js lines
149-170), run after any regime switch: draws the noise, picks the change by
the current regime (the VOLATILITY branch takes one further fresh draw), adds
it to the price and clamps to the floor. -/
def priceMove (g : ℕ → ℚ) (s : GameState) : GameState × (ℕ → ℚ) :=
  let noise := (g 0 - 0.5) * s.volatility
  let g2 : ℕ → ℚ := fun n => g (n + 1)
  let cg : ℚ × (ℕ → ℚ) :=
    match s.currentRegime with
    | Regime.TREND_UP => (0.1 + noise, g2)
    | Regime.TREND_DOWN => (-0.1 + noise, g2)
    | Regime.RANGE => ((s.baseValue - s.currentPrice) * 0.05 + noise, g2)
    | Regime.VOLATILITY => ((g2 0 - 0.5) * 3.0, fun n => g2 (n + 1))
  ({ s with currentPrice := clampFloor (s.currentPrice + cg.1) }, cg.2)

/-- updateMarketLogic (src/app.js lines 141-171): bump the counters, switch
regime if the timer has exceeded the duration, then move the price. -/
def updateMarketLogic (g : ℕ → ℚ) (s : GameState) : GameState × (ℕ → ℚ) :=
  let s0 : GameState := { s with tickCount := s.tickCount + 1, regimeTimer := s.regimeTimer + 1 }
  let sw : GameState × (ℕ → ℚ) :=
    if (s0.regimeTimer : ℤ) > s0.regimeDuration then switchRegime g s0 else (s0, g)
  priceMove sw.2 sw.1

theorem one_le_clampFloor (p : ℚ) : 1 ≤ clampFloor p := by
  unfold clampFloor
  split
  · exact le_refl 1
  · linarith [not_lt.mp (by assumption : ¬ p < 1)]

/-- C1: Price floor invariant — after every updateMarketLogic the price is at
least 1 (hence never negative; ℚ has no NaN value at all).  Proved for every
state, which subsumes every state reachable from the initial state. -/
theorem price_floor_invariant (g : ℕ → ℚ) (s : GameState) :
    1 ≤ ((updateMarketLogic g s).1).currentPrice := by
  show 1 ≤ clampFloor _
  exact one_le_clampFloor _

/-- Written from the words of claim C2: the per-tick price increment,
where noise is (draw − 0.5) × volatility, and the Volatility regime instead
uses a fresh draw times 3.0, ignoring the volatility field. -/
def incrementSpec (r : Regime) (vol base price noiseDraw volDraw : ℚ) : ℚ :=
  let noise := (noiseDraw - 0.5) * vol
  match r with
  | Regime.TREND_UP => 0.1 + noise
  | Regime.TREND_DOWN => -0.1 + noise
  | Regime.RANGE => (base - price) * 0.05 + noise
  | Regime.VOLATILITY => (volDraw - 0.5) * 3.0

theorem clampFloor_eq_max (p : ℚ) : clampFloor p = max 1 p := by
  unfold clampFloor
  rcases lt_or_le p 1 with h | h
  · rw [if_pos h, max_eq_left h.le]
  · rw [if_neg (not_lt.mpr h), max_eq_right h]

theorem switchRegime_currentPrice (g : ℕ → ℚ) (s : GameState) :
    ((switchRegime g s).1).currentPrice = s.currentPrice := by
  simp only [switchRegime]
  split_ifs <;> rfl

theorem switchRegime_stream (g : ℕ → ℚ) (s : GameState) :
    (switchRegime g s).2 = fun n => g (n + 2) := by
  simp only [switchRegime]

theorem priceMove_currentPrice (g : ℕ → ℚ) (s : GameState) :
    ((priceMove g s).1).currentPrice =
      max 1 (s.currentPrice +
        incrementSpec s.currentRegime s.volatility s.baseValue s.currentPrice (g 0) (g 1)) := by
  cases h : s.currentRegime <;>
    simp [priceMove, incrementSpec, h, clampFloor_eq_max]

theorem priceMove_currentRegime (g : ℕ → ℚ) (s : GameState) :
    ((priceMove g s).1).currentRegime = s.currentRegime := rfl

theorem priceMove_volatility (g : ℕ → ℚ) (s : GameState) :
    ((priceMove g s).1).volatility = s.volatility := rfl

theorem priceMove_baseValue (g : ℕ → ℚ) (s : GameState) :
    ((priceMove g s).1).baseValue = s.baseValue := rfl

theorem priceMove_regimeTimer (g : ℕ → ℚ) (s : GameState) :
    ((priceMove g s).1).regimeTimer = s.regimeTimer := rfl

theorem priceMove_regimeDuration (g : ℕ → ℚ) (s : GameState) :
    ((priceMove g s).1).regimeDuration = s.regimeDuration := rfl

theorem priceMove_tickCount (g : ℕ → ℚ) (s : GameState) :
    ((priceMove g s).1).tickCount = s.tickCount := rfl

theorem priceMove_lastStrategyAction (g : ℕ → ℚ) (s : GameState) :
    ((priceMove g s).1).lastStrategyAction = s.lastStrategyAction := rfl

/-- C2: after any switch performed this tick, the increment is computed from
the then-active regime, volatility and baseValue, applied to the pre-move
price, and the result is clamped to the floor of 1.0; the draws feeding the
noise are the ones left after the switch consumed its two. -/
theorem increment_rule (g : ℕ → ℚ) (s : GameState) :
    ((updateMarketLogic g s).1).currentPrice =
      max 1 (s.currentPrice +
        incrementSpec ((updateMarketLogic g s).1).currentRegime
          ((updateMarketLogic g s).1).volatility
          ((updateMarketLogic g s).1).baseValue
          s.currentPrice
          ((if ((s.regimeTimer : ℤ) + 1 > s.regimeDuration) then (fun n => g (n + 2)) else g) 0)
          ((if ((s.regimeTimer : ℤ) + 1 > s.regimeDuration) then (fun n => g (n + 2)) else g) 1)) := by
  by_cases hsw : ((s.regimeTimer : ℤ) + 1 > s.regimeDuration)
  · have hsw' : ((s.regimeTimer + 1 : ℕ) : ℤ) > s.regimeDuration := by push_cast; omega
    simp only [updateMarketLogic, if_pos hsw, if_pos hsw', priceMove_currentPrice,
      priceMove_currentRegime, priceMove_volatility, priceMove_baseValue,
      switchRegime_currentPrice, switchRegime_stream]
  · have hsw' : ¬ ((s.regimeTimer + 1 : ℕ) : ℤ) > s.regimeDuration := by push_cast; omega
    simp only [updateMarketLogic, if_neg hsw, if_neg hsw', priceMove_currentPrice,
      priceMove_currentRegime, priceMove_volatility, priceMove_baseValue]

/-- Written from the words of claim C3: the new regime is selected from one
uniform draw by cumulative thresholds — below 0.40 Range, below 0.65
TrendUp, below 0.90 TrendDown, otherwise Volatility. -/
def selectRegimeSpec (u : ℚ) : Regime :=
  if u < 0.4 then Regime.RANGE
  else if u < 0.65 then Regime.TREND_UP
  else if u < 0.9 then Regime.TREND_DOWN
  else Regime.VOLATILITY

theorem pickRegime_eq_spec (u : ℚ) : pickRegime u = selectRegimeSpec u := rfl

theorem switchRegime_currentRegime (g : ℕ → ℚ) (s : GameState) :
    ((switchRegime g s).1).currentRegime = pickRegime (g 0) := by
  simp only [switchRegime]
  split_ifs <;> rfl

theorem switchRegime_regimeTimer (g : ℕ → ℚ) (s : GameState) :
    ((switchRegime g s).1).regimeTimer = 0 := by
  simp only [switchRegime]
  split_ifs <;> rfl

theorem switchRegime_regimeDuration (g : ℕ → ℚ) (s : GameState) :
    ((switchRegime g s).1).regimeDuration = ⌊rand (g 1) 100 300⌋ := by
  simp only [switchRegime]
  split_ifs <;> rfl

theorem switchRegime_volatility (g : ℕ → ℚ) (s : GameState) :
    ((switchRegime g s).1).volatility =
      (if pickRegime (g 0) = Regime.RANGE then 0.3
       else if pickRegime (g 0) = Regime.VOLATILITY then 1.5 else 0.5) := by
  simp only [switchRegime]
  split_ifs <;> rfl

theorem switchRegime_baseValue (g : ℕ → ℚ) (s : GameState) :
    ((switchRegime g s).1).baseValue =
      (if pickRegime (g 0) = Regime.RANGE then s.currentPrice else s.baseValue) := by
  simp only [switchRegime]
  split_ifs <;> rfl

theorem switchRegime_tickCount (g : ℕ → ℚ) (s : GameState) :
    ((switchRegime g s).1).tickCount = s.tickCount := by
  simp only [switchRegime]
  split_ifs <;> rfl

theorem switchRegime_lastStrategyAction (g : ℕ → ℚ) (s : GameState) :
    ((switchRegime g s).1).lastStrategyAction = s.lastStrategyAction := by
  simp only [switchRegime]
  split_ifs <;> rfl

/-- C3: a regime switch this tick happens exactly when the incremented timer
exceeds the duration; a switch resets the timer to 0, redraws the duration as
the floor of a uniform draw over [100, 300) (always an integer in [100, 300)),
selects the new regime by the cumulative thresholds, sets the entry
volatility, and on entering Range resets baseValue to the current price;
without a switch all the regime fields persist and the timer just counts up. -/
theorem regime_switch_spec (g : ℕ → ℚ) (s : GameState)
    (h2 : 0 ≤ g 1) (h3 : g 1 < 1) :
    (((updateMarketLogic g s).1).regimeTimer = 0 ↔ (s.regimeTimer : ℤ) + 1 > s.regimeDuration) ∧
    ((s.regimeTimer : ℤ) + 1 > s.regimeDuration →
      ((updateMarketLogic g s).1).currentRegime = selectRegimeSpec (g 0) ∧
      ((updateMarketLogic g s).1).regimeDuration = ⌊100 + g 1 * 200⌋ ∧
      100 ≤ ((updateMarketLogic g s).1).regimeDuration ∧
      ((updateMarketLogic g s).1).regimeDuration < 300 ∧
      ((updateMarketLogic g s).1).volatility =
        (if selectRegimeSpec (g 0) = Regime.RANGE then 0.3
         else if selectRegimeSpec (g 0) = Regime.VOLATILITY then 1.5 else 0.5) ∧
      (selectRegimeSpec (g 0) = Regime.RANGE →
        ((updateMarketLogic g s).1).baseValue = s.currentPrice)) ∧
    (¬ ((s.regimeTimer : ℤ) + 1 > s.regimeDuration) →
      ((updateMarketLogic g s).1).currentRegime = s.currentRegime ∧
      ((updateMarketLogic g s).1).regimeDuration = s.regimeDuration ∧
      ((updateMarketLogic g s).1).regimeTimer = s.regimeTimer + 1 ∧
      ((updateMarketLogic g s).1).volatility = s.volatility ∧
      ((updateMarketLogic g s).1).baseValue = s.baseValue) := by
  have hdur : ⌊rand (g 1) 100 300⌋ = ⌊100 + g 1 * 200⌋ := by
    unfold rand
    norm_num [add_comm]
  have hlo : (100 : ℤ) ≤ ⌊100 + g 1 * 200⌋ := by
    rw [Int.le_floor]
    push_cast
    nlinarith
  have hhi : ⌊100 + g 1 * 200⌋ < (300 : ℤ) := by
    rw [Int.floor_lt]
    push_cast
    nlinarith
  by_cases hsw : ((s.regimeTimer : ℤ) + 1 > s.regimeDuration)
  · have hsw' : ((s.regimeTimer + 1 : ℕ) : ℤ) > s.regimeDuration := by push_cast; omega
    simp only [updateMarketLogic, if_pos hsw', priceMove_currentRegime, priceMove_volatility,
      priceMove_baseValue, priceMove_regimeTimer, priceMove_regimeDuration,
      switchRegime_currentRegime, switchRegime_regimeTimer, switchRegime_regimeDuration,
      switchRegime_volatility, switchRegime_baseValue, pickRegime_eq_spec, hdur]
    refine ⟨by simp [hsw], fun _ => ⟨by trivial, by trivial, hlo, hhi, by trivial,
      fun hr => by simp [hr]⟩, fun hc => absurd hsw hc⟩
  · have hsw' : ¬ ((s.regimeTimer + 1 : ℕ) : ℤ) > s.regimeDuration := by push_cast; omega
    simp only [updateMarketLogic, if_neg hsw', priceMove_currentRegime, priceMove_volatility,
      priceMove_baseValue, priceMove_regimeTimer, priceMove_regimeDuration]
    exact ⟨by simp [hsw], fun hc => absurd hc hsw,
      fun _ => ⟨by trivial, by trivial, by trivial, by trivial, by trivial⟩⟩

/-- Witness for regime_switch_spec: a concrete state whose timer has run past
its duration does switch (timer resets to 0), with concrete in-range draws. -/
theorem regime_switch_spec_witness :
    (0 : ℚ) ≤ (fun n => if n = 0 then (1 : ℚ) / 2 else 1 / 4) 1 ∧
    ((fun n => if n = 0 then (1 : ℚ) / 2 else 1 / 4) 1 : ℚ) < 1 ∧
    ((updateMarketLogic (fun n => if n = 0 then (1 : ℚ) / 2 else 1 / 4)
        { initialState with regimeTimer := 200 }).1).regimeTimer = 0 :=
  ⟨by norm_num, by norm_num,
    (regime_switch_spec (fun n => if n = 0 then (1 : ℚ) / 2 else 1 / 4)
        { initialState with regimeTimer := 200 } (by norm_num) (by norm_num)).1.mpr
      (by norm_num [initialState])⟩

/-- addXp (src/app.js lines 446-457): add the award, and on reaching the
threshold bump the level, reset xp to 0 and scale the threshold by 1.5.
The xp-bar width update is UI-only and dropped. -/
def addXp (amount : ℚ) (s : GameState) : GameState :=
  let s1 : GameState := { s with xp := s.xp + amount }
  if s1.xp ≥ s1.nextLevelXp then
    { s1 with level := s1.level + 1, xp := 0, nextLevelXp := s1.nextLevelXp * 1.5 }
  else s1

/-- evaluateTrade (src/app.js lines 416-444), progression part only: the
contextual feedback strings chosen by (regime, win) are UI-only and dropped.
A win (profit > 0) awards max(10, floor(profit × 0.1)) XP, a loss awards 5. -/
def evaluateTrade (profit : ℚ) (s : GameState) : GameState :=
  if profit > 0 then addXp ((max 10 ⌊profit * 0.1⌋ : ℤ) : ℚ) s
  else addXp 5 s

/-- buy (src/app.js lines 325-346): full-balance deployment.  Rejects when
trading is not permitted today or the computed amount is ≤ 0; otherwise
deducts the cost and recomputes the weighted-average entry price. -/
def buy (s : GameState) : GameState :=
  if s.canTrade = false then s
  else
    let amt : ℤ := ⌊s.balance / s.currentPrice⌋
    if amt ≤ 0 then s
    else
      let cost := (amt : ℚ) * s.currentPrice
      let totalVal := (s.shares : ℚ) * s.avgCost + cost
      { s with balance := s.balance - cost,
               shares := s.shares + amt,
               avgCost := totalVal / ((s.shares + amt : ℤ) : ℚ) }

/-- buy in the variant src/unnamed/part_000 lines 355-382: the tradable
amount comes from `availableBalance = balance × pct`, where pct is the
externally supplied slider percentage (a rational in [0, 1] in the UI). -/
def buySlider (pct : ℚ) (s : GameState) : GameState :=
  if s.canTrade = false then s
  else
    let availableBalance := s.balance * pct
    let amt : ℤ := ⌊availableBalance / s.currentPrice⌋
    if amt ≤ 0 then s
    else
      let cost := (amt : ℚ) * s.currentPrice
      let totalVal := (s.shares : ℚ) * s.avgCost + cost
      { s with balance := s.balance - cost,
               shares := s.shares + amt,
               avgCost := totalVal / ((s.shares + amt : ℤ) : ℚ) }

/-- The `parseFloat(x.toFixed(2))` float fix in sell (src/app.js line 363):
ECMAScript toFixed picks the integer n minimizing the distance of n/100 to x,
taking the larger n on ties, which is exactly round-half-up at two decimals. -/
def round2 (q : ℚ) : ℚ := ((⌊q * 100 + 1 / 2⌋ : ℤ) : ℚ) / 100

/-- sell (src/app.js lines 348-367): gated by canTrade, no-op with no open
position; otherwise liquidates everything at the current price, credits the
revenue (then applies the two-decimal float fix to the balance), zeroes the
shares and forwards the realized profit to evaluateTrade.  The second
component reports the realized profit (spec section 6: Result of RealizedTrade
or NoOpenPosition); the source communicates it only by calling evaluateTrade. -/
def sell (s : GameState) : GameState × Option ℚ :=
  if s.canTrade = false then (s, none)
  else if s.shares ≤ 0 then (s, none)
  else
    let revenue := (s.shares : ℚ) * s.currentPrice
    let profit := revenue - (s.shares : ℚ) * s.avgCost
    let s1 : GameState := { s with balance := round2 (s.balance + revenue), shares := 0 }
    (evaluateTrade profit s1, some profit)

/-- Array.prototype.slice with one (possibly negative) start argument, as
used on the price history: a negative start counts from the end, clamped
to 0. -/
def jsSlice (l : List ℚ) (start : ℤ) : List ℚ :=
  let len : ℤ := l.length
  let k : ℤ := if start < 0 then max (len + start) 0 else min start len
  l.drop k.toNat

/-- The maSlow computation in runAutoStrategy (src/app.js line 386):
`prices.slice(len - 50).reduce((a, b) => a + b, 0) / 50` — note the constant
divisor 50, whatever the slice length. -/
def maSlow (prices : List ℚ) : ℚ :=
  (jsSlice prices ((prices.length : ℤ) - 50)).sum / 50

/-- The maFast computation in runAutoStrategy (src/app.js line 387). -/
def maFast (prices : List ℚ) : ℚ :=
  (jsSlice prices ((prices.length : ℤ) - 10)).sum / 10

/-- runAutoStrategy (src/app.js lines 378-412).  The Bool reports whether an
autonomous action (a buy() or sell() call) was issued this invocation; on any
action the source stamps lastStrategyAction with the current tickCount.
The `isDip` intermediate of the source is computed but never used, so it is
omitted.  The JS cooldown test compares a possibly negative difference
against 20; truncated ℕ subtraction takes the same branch in every case. -/
def runAutoStrategy (s : GameState) : GameState × Bool :=
  let prices := s.prices
  let len := prices.length
  if len < 20 then (s, false)
  else
    let ms := maSlow prices
    let mf := maFast prices
    let isUptrend := mf > ms
    if s.tickCount - s.lastStrategyAction < 20 then (s, false)
    else
      if s.shares = 0 then
        if s.currentRegime = Regime.TREND_UP ∧ isUptrend then
          ({ buy s with lastStrategyAction := s.tickCount }, true)
        else if s.currentRegime = Regime.RANGE ∧ s.currentPrice < s.baseValue * 0.99 then
          ({ buy s with lastStrategyAction := s.tickCount }, true)
        else (s, false)
      else
        let pnl := (s.currentPrice - s.avgCost) / s.avgCost
        if pnl > 0.05 ∨ pnl < -0.02 then
          ({ (sell s).1 with lastStrategyAction := s.tickCount }, true)
        else (s, false)

/-- The history maintenance in gameTick (src/app.js lines 176-180): append
the current price, and shift out the oldest sample if the buffer exceeds
HISTORY_SIZE. -/
def pushPrice (s : GameState) : GameState :=
  let s1 : GameState := { s with prices := s.prices ++ [s.currentPrice] }
  if s1.prices.length > HISTORY_SIZE then { s1 with prices := s1.prices.tail } else s1

/-- gameTick (src/app.js lines 173-188): advance the market, append the new
price to the history with FIFO eviction beyond HISTORY_SIZE, and — when the
auto strategy is on and the tick count is a multiple of 10 — run the
strategy.  updateUI is presentation only and dropped.  The Bool reports
whether the strategy issued an action. -/
def gameTick (g : ℕ → ℚ) (s : GameState) : GameState × (ℕ → ℚ) × Bool :=
  let ug := updateMarketLogic g s
  let s2 := pushPrice ug.1
  if s2.autoStrategyActive = true ∧ s2.tickCount % 10 = 0 then
    ((runAutoStrategy s2).1, ug.2, (runAutoStrategy s2).2)
  else (s2, ug.2, false)

/-- Iterate gameTick n times from a state and stream, collecting the list of
tick counts at which the strategy issued an action. -/
def runTrace (g : ℕ → ℚ) (s : GameState) : ℕ → GameState × (ℕ → ℚ) × List ℕ
  | 0 => (s, g, [])
  | n + 1 =>
    let r := runTrace g s n
    let t := gameTick r.2.1 r.1
    (t.1, t.2.1, if t.2.2 = true then r.2.2 ++ [t.1.tickCount] else r.2.2)

/-- Counterexample to C4: with a history of exactly 20 samples (all 100),
maSlow is the slice sum divided by the constant 50 — that is 40, not the
arithmetic mean 100 of the available samples. -/
theorem maSlow_not_mean_of_available :
    maSlow (List.replicate 20 (100 : ℚ)) ≠
      (List.replicate 20 (100 : ℚ)).sum / ((List.replicate 20 (100 : ℚ)).length : ℚ) := by
  norm_num [maSlow, jsSlice, List.replicate]

/-- C4 as amended: for 20 ≤ len < 50, maSlow equals the sum of the JS tail
slice (the last min(len, 50 − len) samples, i.e. those from index
2·len − 50 truncated at 0) divided by the constant 50 — not the mean of the
available samples — while maFast is the arithmetic mean of the last 10
samples (a 10-element slice). -/
theorem moving_averages_short_history (prices : List ℚ)
    (h20 : 20 ≤ prices.length) (h50 : prices.length < 50) :
    maSlow prices = (prices.drop (2 * prices.length - 50)).sum / 50 ∧
    maFast prices = (prices.drop (prices.length - 10)).sum / 10 ∧
    (prices.drop (prices.length - 10)).length = 10 := by
  refine ⟨?_, ?_, ?_⟩
  · simp only [maSlow, jsSlice]
    have hneg : ((prices.length : ℤ) - 50) < 0 := by omega
    rw [if_pos hneg]
    have hk : (max ((prices.length : ℤ) + ((prices.length : ℤ) - 50)) 0).toNat =
        2 * prices.length - 50 := by omega
    rw [hk]
  · simp only [maFast, jsSlice]
    have hpos : ¬ ((prices.length : ℤ) - 10) < 0 := by omega
    rw [if_neg hpos]
    have hk : (min ((prices.length : ℤ) - 10) (prices.length : ℤ)).toNat =
        prices.length - 10 := by omega
    rw [hk]
  · rw [List.length_drop]
    omega

/-- Witness for moving_averages_short_history at the 20-sample history of
constant price 100: the slice starts at index 0, maSlow is 2000/50 = 40 and
maFast is 100. -/
theorem moving_averages_short_history_witness :
    20 ≤ (List.replicate 20 (100 : ℚ)).length ∧ (List.replicate 20 (100 : ℚ)).length < 50 ∧
    maSlow (List.replicate 20 (100 : ℚ)) =
      ((List.replicate 20 (100 : ℚ)).drop (2 * (List.replicate 20 (100 : ℚ)).length - 50)).sum / 50 :=
  ⟨by decide, by decide,
    (moving_averages_short_history (List.replicate 20 (100 : ℚ)) (by decide) (by decide)).1⟩

/-- C6: with fewer than 20 history samples, runAutoStrategy is a no-op: the
state is returned unchanged and no buy or sell is issued, whatever the
moving-average and regime conditions would say. -/
theorem strategy_insufficient_history (s : GameState) (h : s.prices.length < 20) :
    runAutoStrategy s = (s, false) := by
  simp only [runAutoStrategy, if_pos h]

/-- A concrete state with exactly 19 samples where every other condition for
an autonomous buy holds: TrendUp regime, maFast (100) above maSlow (38), no
open position, cooldown long expired, trading permitted. -/
def nineteenSampleState : GameState :=
  { initialState with prices := List.replicate 19 (100 : ℚ), tickCount := 100,
                      currentRegime := Regime.TREND_UP, canTrade := true }

/-- Witness for strategy_insufficient_history: the 19-sample state satisfies
the buy conditions other than history length, yet nothing happens. -/
theorem strategy_insufficient_history_witness :
    nineteenSampleState.prices.length < 20 ∧
    nineteenSampleState.currentRegime = Regime.TREND_UP ∧
    maFast nineteenSampleState.prices > maSlow nineteenSampleState.prices ∧
    nineteenSampleState.shares = 0 ∧
    20 ≤ nineteenSampleState.tickCount - nineteenSampleState.lastStrategyAction ∧
    runAutoStrategy nineteenSampleState = (nineteenSampleState, false) :=
  ⟨by decide, by decide,
    by
      have h9 : (9 : ℤ).toNat = 9 := rfl
      norm_num [maFast, maSlow, jsSlice, nineteenSampleState, initialState, List.replicate, h9],
    by decide, by decide,
    strategy_insufficient_history nineteenSampleState (by decide)⟩

theorem updateMarketLogic_tickCount (g : ℕ → ℚ) (s : GameState) :
    ((updateMarketLogic g s).1).tickCount = s.tickCount + 1 := by
  simp only [updateMarketLogic, priceMove_tickCount]
  split_ifs <;> simp [switchRegime_tickCount]

theorem updateMarketLogic_lastStrategyAction (g : ℕ → ℚ) (s : GameState) :
    ((updateMarketLogic g s).1).lastStrategyAction = s.lastStrategyAction := by
  simp only [updateMarketLogic, priceMove_lastStrategyAction]
  split_ifs <;> simp [switchRegime_lastStrategyAction]

theorem pushPrice_tickCount (s : GameState) : (pushPrice s).tickCount = s.tickCount := by
  simp only [pushPrice]
  split_ifs <;> rfl

theorem pushPrice_lastStrategyAction (s : GameState) :
    (pushPrice s).lastStrategyAction = s.lastStrategyAction := by
  simp only [pushPrice]
  split_ifs <;> rfl

theorem addXp_tickCount (a : ℚ) (s : GameState) : (addXp a s).tickCount = s.tickCount := by
  simp only [addXp]
  split_ifs <;> rfl

theorem addXp_lastStrategyAction (a : ℚ) (s : GameState) :
    (addXp a s).lastStrategyAction = s.lastStrategyAction := by
  simp only [addXp]
  split_ifs <;> rfl

theorem addXp_shares (a : ℚ) (s : GameState) : (addXp a s).shares = s.shares := by
  simp only [addXp]
  split_ifs <;> rfl

theorem addXp_canTrade (a : ℚ) (s : GameState) : (addXp a s).canTrade = s.canTrade := by
  simp only [addXp]
  split_ifs <;> rfl

theorem addXp_balance (a : ℚ) (s : GameState) : (addXp a s).balance = s.balance := by
  simp only [addXp]
  split_ifs <;> rfl

theorem evaluateTrade_tickCount (p : ℚ) (s : GameState) :
    (evaluateTrade p s).tickCount = s.tickCount := by
  simp only [evaluateTrade]
  split_ifs <;> rw [addXp_tickCount]

theorem evaluateTrade_lastStrategyAction (p : ℚ) (s : GameState) :
    (evaluateTrade p s).lastStrategyAction = s.lastStrategyAction := by
  simp only [evaluateTrade]
  split_ifs <;> rw [addXp_lastStrategyAction]

theorem evaluateTrade_shares (p : ℚ) (s : GameState) :
    (evaluateTrade p s).shares = s.shares := by
  simp only [evaluateTrade]
  split_ifs <;> rw [addXp_shares]

theorem evaluateTrade_canTrade (p : ℚ) (s : GameState) :
    (evaluateTrade p s).canTrade = s.canTrade := by
  simp only [evaluateTrade]
  split_ifs <;> rw [addXp_canTrade]

theorem evaluateTrade_balance (p : ℚ) (s : GameState) :
    (evaluateTrade p s).balance = s.balance := by
  simp only [evaluateTrade]
  split_ifs <;> rw [addXp_balance]

theorem buy_tickCount (s : GameState) : (buy s).tickCount = s.tickCount := by
  simp only [buy]
  split_ifs <;> rfl

theorem buy_lastStrategyAction (s : GameState) :
    (buy s).lastStrategyAction = s.lastStrategyAction := by
  simp only [buy]
  split_ifs <;> rfl

theorem buy_level (s : GameState) : (buy s).level = s.level := by
  simp only [buy]
  split_ifs <;> rfl

theorem buy_canTrade (s : GameState) : (buy s).canTrade = s.canTrade := by
  simp only [buy]
  split_ifs <;> rfl

theorem sell_tickCount (s : GameState) : ((sell s).1).tickCount = s.tickCount := by
  simp only [sell]
  split_ifs <;> simp [evaluateTrade_tickCount]

theorem sell_lastStrategyAction (s : GameState) :
    ((sell s).1).lastStrategyAction = s.lastStrategyAction := by
  simp only [sell]
  split_ifs <;> simp [evaluateTrade_lastStrategyAction]

/-- Every invocation of runAutoStrategy either leaves the state untouched and
reports no action, or reports an action, stamps lastStrategyAction with the
current tickCount, keeps the tick count, and was separated from the previous
stamp by at least 20 ticks. -/
theorem runAutoStrategy_dichotomy (s : GameState) :
    runAutoStrategy s = (s, false) ∨
    ((runAutoStrategy s).2 = true ∧
     ((runAutoStrategy s).1).lastStrategyAction = s.tickCount ∧
     ((runAutoStrategy s).1).tickCount = s.tickCount ∧
     s.lastStrategyAction + 20 ≤ s.tickCount) := by
  simp only [runAutoStrategy]
  split_ifs with h1 h2 h3 h4 h5 h6
  · exact Or.inl rfl
  · exact Or.inl rfl
  · exact Or.inr ⟨rfl, rfl, by simp [buy_tickCount], by omega⟩
  · exact Or.inr ⟨rfl, rfl, by simp [buy_tickCount], by omega⟩
  · exact Or.inl rfl
  · exact Or.inr ⟨rfl, rfl, by simp [sell_tickCount], by omega⟩
  · exact Or.inl rfl

/-- Each gameTick either issues no action and keeps lastStrategyAction, or
issues one stamped at the new tick count, at least 20 ticks past the
previous stamp. -/
theorem gameTick_dichotomy (g : ℕ → ℚ) (s : GameState) :
    ((gameTick g s).2.2 = false ∧
     ((gameTick g s).1).lastStrategyAction = s.lastStrategyAction) ∨
    ((gameTick g s).2.2 = true ∧
     ((gameTick g s).1).lastStrategyAction = ((gameTick g s).1).tickCount ∧
     s.lastStrategyAction + 20 ≤ ((gameTick g s).1).tickCount) := by
  simp only [gameTick]
  have hL : (pushPrice ((updateMarketLogic g s).1)).lastStrategyAction =
      s.lastStrategyAction := by
    rw [pushPrice_lastStrategyAction, updateMarketLogic_lastStrategyAction]
  split_ifs with h
  · rcases runAutoStrategy_dichotomy (pushPrice ((updateMarketLogic g s).1)) with hr | hr
    · exact Or.inl ⟨by rw [hr], by rw [hr, hL]⟩
    · exact Or.inr ⟨hr.1, by rw [hr.2.1, hr.2.2.1], by rw [hr.2.2.1, ← hL]; exact hr.2.2.2⟩
  · exact Or.inl ⟨rfl, hL⟩

/-- Along any trace, every recorded action tick is bounded by the current
lastStrategyAction stamp, and consecutive recorded actions are at least 20
ticks apart. -/
theorem runTrace_invariant (g : ℕ → ℚ) (s : GameState) (n : ℕ) :
    (∀ t ∈ (runTrace g s n).2.2, t ≤ ((runTrace g s n).1).lastStrategyAction) ∧
    ((runTrace g s n).2.2).Pairwise (fun a b => a + 20 ≤ b) := by
  induction n with
  | zero => simp [runTrace]
  | succ n ih =>
    obtain ⟨ih1, ih2⟩ := ih
    simp only [runTrace]
    rcases gameTick_dichotomy ((runTrace g s n).2.1) ((runTrace g s n).1) with
      ⟨hf, hl⟩ | ⟨ht, hl, hb⟩
    · rw [hf]
      simp only [Bool.false_eq_true, if_false]
      exact ⟨fun t ht' => (hl.symm ▸ ih1 t ht' : _), ih2⟩
    · rw [ht]
      simp only [if_true]
      constructor
      · intro t htmem
        rcases List.mem_append.mp htmem with hmem | hmem
        · have := ih1 t hmem
          rw [hl]
          omega
        · rw [List.mem_singleton.mp hmem, hl]
      · rw [List.pairwise_append]
        refine ⟨ih2, List.pairwise_singleton _ _, ?_⟩
        intro a ha b hb'
        rw [List.mem_singleton.mp hb']
        have := ih1 a ha
        omega

/-- C5: cooldown enforcement.  Along every trace the strategy never issues
two actions fewer than 20 ticks apart; whenever tickCount minus
lastStrategyAction is under 20 at invocation it takes no action at all; and
any issued action stamps lastStrategyAction with the current tick count. -/
theorem cooldown_enforcement :
    (∀ (g : ℕ → ℚ) (s : GameState) (n : ℕ),
      ((runTrace g s n).2.2).Pairwise (fun a b => a + 20 ≤ b)) ∧
    (∀ s : GameState, s.tickCount - s.lastStrategyAction < 20 →
      runAutoStrategy s = (s, false)) ∧
    (∀ s : GameState, (runAutoStrategy s).2 = true →
      ((runAutoStrategy s).1).lastStrategyAction = s.tickCount) := by
  refine ⟨fun g s n => (runTrace_invariant g s n).2, fun s h => ?_, fun s h => ?_⟩
  · simp only [runAutoStrategy]
    split_ifs <;> rfl
  · rcases runAutoStrategy_dichotomy s with hr | hr
    · rw [hr] at h
      exact absurd h (by simp)
    · exact hr.2.1

/-- A state under cooldown: five ticks in, last action stamped at tick 0. -/
def cooldownState : GameState := { initialState with tickCount := 5 }

/-- A state in which the strategy does act: 20 samples at 100, TrendUp,
maFast (100) above maSlow (40), no position, cooldown long expired. -/
def actingState : GameState :=
  { initialState with prices := List.replicate 20 (100 : ℚ), tickCount := 100,
                      currentRegime := Regime.TREND_UP, canTrade := true }

theorem actingState_acts : (runAutoStrategy actingState).2 = true := by
  have h10 : (10 : ℤ).toNat = 10 := rfl
  norm_num [runAutoStrategy, actingState, initialState, maSlow, maFast, jsSlice,
    List.replicate, h10]

/-- Witness for cooldown_enforcement: under cooldown nothing happens, and an
issued action stamps lastStrategyAction with the current tick count. -/
theorem cooldown_enforcement_witness :
    cooldownState.tickCount - cooldownState.lastStrategyAction < 20 ∧
    runAutoStrategy cooldownState = (cooldownState, false) ∧
    (runAutoStrategy actingState).2 = true ∧
    ((runAutoStrategy actingState).1).lastStrategyAction = actingState.tickCount :=
  ⟨by decide, cooldown_enforcement.2.1 cooldownState (by decide),
    actingState_acts, cooldown_enforcement.2.2 actingState actingState_acts⟩

theorem buy_noop (s : GameState)
    (h : s.canTrade = false ∨ ⌊s.balance / s.currentPrice⌋ ≤ 0) : buy s = s := by
  simp only [buy]
  rcases h with h | h
  · rw [if_pos h]
  · split_ifs <;> rfl

theorem buy_success (s : GameState) (hc : s.canTrade = true)
    (hamt : 0 < ⌊s.balance / s.currentPrice⌋) :
    buy s = { s with
      balance := s.balance - (⌊s.balance / s.currentPrice⌋ : ℚ) * s.currentPrice,
      shares := s.shares + ⌊s.balance / s.currentPrice⌋,
      avgCost := ((s.shares : ℚ) * s.avgCost +
          (⌊s.balance / s.currentPrice⌋ : ℚ) * s.currentPrice) /
        ((s.shares + ⌊s.balance / s.currentPrice⌋ : ℤ) : ℚ) } := by
  simp only [buy]
  rw [if_neg (by simp [hc]), if_neg (not_le.mpr hamt)]

/-- Written from the words of claim C7: the (amount, entry price) pairs of the
successful buys executed along a list of prices, with the balance evolving
exactly as repeated buys evolve it; a step whose computed amount is not
positive executes nothing. -/
def entries (balance : ℚ) : List ℚ → List (ℤ × ℚ)
  | [] => []
  | p :: ps =>
    let amt : ℤ := ⌊balance / p⌋
    if amt ≤ 0 then entries balance ps
    else (amt, p) :: entries (balance - (amt : ℚ) * p) ps

/-- Set the market price to p, then buy (one step of the claim C7 sequence of
buys at the listed prices). -/
def buyAt (s : GameState) (p : ℚ) : GameState := buy { s with currentPrice := p }

/-- A sequence of buys at the listed prices, with no intervening sell. -/
def buySeq (s : GameState) (ps : List ℚ) : GameState := ps.foldl buyAt s

theorem buySeq_basis (ps : List ℚ) : ∀ s : GameState, s.canTrade = true → 0 ≤ s.shares →
    (buySeq s ps).canTrade = true ∧
    0 ≤ (buySeq s ps).shares ∧
    (buySeq s ps).shares = s.shares + ((entries s.balance ps).map Prod.fst).sum ∧
    ((buySeq s ps).shares : ℚ) * (buySeq s ps).avgCost =
      (s.shares : ℚ) * s.avgCost +
        ((entries s.balance ps).map (fun e => (e.1 : ℚ) * e.2)).sum := by
  induction ps with
  | nil =>
    intro s hc hsh
    simp [buySeq, entries, hc, hsh]
  | cons p ps ih =>
    intro s hc hsh
    have hseq : buySeq s (p :: ps) = buySeq (buyAt s p) ps := rfl
    rw [hseq]
    simp only [entries]
    by_cases hamt : (⌊s.balance / p⌋ : ℤ) ≤ 0
    · rw [if_pos hamt]
      have hb : buyAt s p = { s with currentPrice := p } := by
        unfold buyAt
        exact buy_noop _ (Or.inr hamt)
      have hc2 : (buyAt s p).canTrade = true := by rw [hb]; exact hc
      have hsh2 : 0 ≤ (buyAt s p).shares := by rw [hb]; exact hsh
      obtain ⟨h1, h2, h3, h4⟩ := ih (buyAt s p) hc2 hsh2
      have hbal : (buyAt s p).balance = s.balance := by rw [hb]
      have hshr : (buyAt s p).shares = s.shares := by rw [hb]
      have havg : (buyAt s p).avgCost = s.avgCost := by rw [hb]
      rw [hbal, hshr] at h3
      rw [hbal, hshr, havg] at h4
      exact ⟨h1, h2, h3, h4⟩
    · rw [if_neg hamt]
      push_neg at hamt
      have hshpos : (0 : ℤ) < s.shares + ⌊s.balance / p⌋ := by omega
      have hne : ((s.shares + ⌊s.balance / p⌋ : ℤ) : ℚ) ≠ 0 := by
        exact_mod_cast hshpos.ne'
      have hb : buyAt s p = { s with
          currentPrice := p,
          balance := s.balance - (⌊s.balance / p⌋ : ℚ) * p,
          shares := s.shares + ⌊s.balance / p⌋,
          avgCost := ((s.shares : ℚ) * s.avgCost + (⌊s.balance / p⌋ : ℚ) * p) /
            ((s.shares + ⌊s.balance / p⌋ : ℤ) : ℚ) } := by
        unfold buyAt
        rw [buy_success { s with currentPrice := p } hc hamt]
      have hc2 : (buyAt s p).canTrade = true := by rw [hb]; exact hc
      have hsh2 : 0 ≤ (buyAt s p).shares := by rw [hb]; exact hshpos.le
      obtain ⟨h1, h2, h3, h4⟩ := ih (buyAt s p) hc2 hsh2
      have hbal : (buyAt s p).balance = s.balance - (⌊s.balance / p⌋ : ℚ) * p := by rw [hb]
      have hshr : (buyAt s p).shares = s.shares + ⌊s.balance / p⌋ := by rw [hb]
      have hbasis : ((buyAt s p).shares : ℚ) * (buyAt s p).avgCost =
          (s.shares : ℚ) * s.avgCost + (⌊s.balance / p⌋ : ℚ) * p := by
        rw [hb]
        rw [mul_comm]
        exact div_mul_cancel₀ _ hne
      rw [hbal, hshr] at h3
      rw [hbasis, hbal] at h4
      refine ⟨h1, h2, ?_, ?_⟩
      · rw [h3]
        simp only [List.map_cons, List.sum_cons]
        omega
      · rw [h4]
        simp only [List.map_cons, List.sum_cons]
        ring

/-- C7: each successful buy updates avgCost by the weighted-average formula,
and along any sequence of buys with no intervening sell (started from a flat
position) the resulting avgCost is the volume-weighted mean of the per-share
entry prices of all shares held — exact in rational arithmetic. -/
theorem weighted_average_cost :
    (∀ s : GameState, s.canTrade = true → 0 < ⌊s.balance / s.currentPrice⌋ →
      (buy s).avgCost =
        ((s.shares : ℚ) * s.avgCost + (⌊s.balance / s.currentPrice⌋ : ℚ) * s.currentPrice) /
          ((s.shares : ℚ) + (⌊s.balance / s.currentPrice⌋ : ℚ))) ∧
    (∀ (s : GameState) (ps : List ℚ), s.canTrade = true → s.shares = 0 →
      0 < (buySeq s ps).shares →
      (buySeq s ps).avgCost =
        ((entries s.balance ps).map (fun e => (e.1 : ℚ) * e.2)).sum /
          ((((entries s.balance ps).map Prod.fst).sum : ℤ) : ℚ)) := by
  constructor
  · intro s hc hamt
    rw [buy_success s hc hamt]
    push_cast
    rfl
  · intro s ps hc hsh hpos
    obtain ⟨h1, h2, h3, h4⟩ := buySeq_basis ps s hc (le_of_eq hsh.symm)
    rw [hsh] at h3
    rw [hsh] at h4
    simp only [Int.cast_zero, zero_mul, zero_add] at h3 h4
    have hne : (((buySeq s ps).shares : ℤ) : ℚ) ≠ 0 := by
      exact_mod_cast hpos.ne'
    rw [← h3, ← h4, mul_div_cancel_left₀ _ hne]

/-- A flat, trade-permitted start state for the buy-sequence witness. -/
def flatStart : GameState := { initialState with canTrade := true }

theorem flatStart_buySeq_shares : (buySeq flatStart [(40 : ℚ), 10]).shares = 4 := by
  have hb1 : buyAt flatStart 40 = { flatStart with
      currentPrice := 40, balance := 20, shares := 2, avgCost := 40 } := by
    rw [buyAt, buy_success _ rfl (by norm_num [flatStart, initialState])]
    norm_num [flatStart, initialState]
  have hb2 : buyAt { flatStart with
      currentPrice := (40 : ℚ), balance := 20, shares := 2, avgCost := 40 } 10 =
      { flatStart with currentPrice := 10, balance := 0, shares := 4, avgCost := 25 } := by
    rw [buyAt, buy_success _ rfl (by norm_num [flatStart, initialState])]
    norm_num [flatStart, initialState]
  simp only [buySeq, List.foldl_cons, List.foldl_nil, hb1, hb2]

/-- Witness for weighted_average_cost: two successful buys from the flat
start (2 shares at 40, then 2 at 10) leave a positive position whose avgCost
is the volume-weighted entry mean given by the theorem. -/
theorem weighted_average_cost_witness :
    flatStart.canTrade = true ∧ flatStart.shares = 0 ∧
    0 < (buySeq flatStart [(40 : ℚ), 10]).shares ∧
    (buySeq flatStart [(40 : ℚ), 10]).avgCost =
      ((entries flatStart.balance [(40 : ℚ), 10]).map (fun e => (e.1 : ℚ) * e.2)).sum /
        ((((entries flatStart.balance [(40 : ℚ), 10]).map Prod.fst).sum : ℤ) : ℚ) :=
  ⟨rfl, rfl, by rw [flatStart_buySeq_shares]; norm_num,
    weighted_average_cost.2 flatStart [(40 : ℚ), 10] rfl rfl
      (by rw [flatStart_buySeq_shares]; norm_num)⟩

theorem sell_success (s : GameState) (hc : s.canTrade = true) (hs : 0 < s.shares) :
    (sell s).1 = evaluateTrade ((s.shares : ℚ) * s.currentPrice - (s.shares : ℚ) * s.avgCost)
        { s with balance := round2 (s.balance + (s.shares : ℚ) * s.currentPrice),
                 shares := 0 } ∧
    (sell s).2 = some ((s.shares : ℚ) * s.currentPrice - (s.shares : ℚ) * s.avgCost) := by
  simp only [sell]
  rw [if_neg (by simp [hc]), if_neg (not_le.mpr hs)]
  exact ⟨rfl, rfl⟩

/-- A state holding one share with an awkward price: selling at 100.001
cannot credit the exact revenue once the balance is rounded to cents. -/
def oddPriceState : GameState :=
  { initialState with canTrade := true, shares := 1, avgCost := 100,
                      currentPrice := 100 + 1 / 1000, balance := 0 }

/-- Counterexample to the exact-revenue-credit part of C8: the source
rounds the credited balance to two decimals (src/app.js line 363), so from
balance 0 a sale of 1 share at 100.001 leaves balance 100, not 100.001. -/
theorem sell_credit_not_exact :
    ((sell oddPriceState).1).balance ≠
      oddPriceState.balance + (oddPriceState.shares : ℚ) * oddPriceState.currentPrice := by
  have h := (sell_success oddPriceState rfl (by decide)).1
  rw [h, evaluateTrade_balance]
  norm_num [oddPriceState, initialState, round2]

/-- C8 as amended: sell with trading permitted and an open position credits
the full revenue and then rounds the balance to two decimals (the toFixed(2)
float fix), computes profit = shares×price − shares×avgCost before rounding
and forwards it to the progression ledger, zeroes the shares; any sell with
no open position is a no-op, so a second sell right after a successful one
changes nothing. -/
theorem sell_full_liquidation (s : GameState) (hc : s.canTrade = true) (hs : 0 < s.shares) :
    ((sell s).1).balance = round2 (s.balance + (s.shares : ℚ) * s.currentPrice) ∧
    ((sell s).1).shares = 0 ∧
    (sell s).2 = some ((s.shares : ℚ) * s.currentPrice - (s.shares : ℚ) * s.avgCost) ∧
    (sell s).1 = evaluateTrade ((s.shares : ℚ) * s.currentPrice - (s.shares : ℚ) * s.avgCost)
        { s with balance := round2 (s.balance + (s.shares : ℚ) * s.currentPrice),
                 shares := 0 } ∧
    (∀ t : GameState, t.shares = 0 → sell t = (t, none)) ∧
    sell ((sell s).1) = ((sell s).1, none) := by
  obtain ⟨h1, h2⟩ := sell_success s hc hs
  have hnoop : ∀ t : GameState, t.shares = 0 → sell t = (t, none) := by
    intro t ht
    simp only [sell]
    split_ifs with hct hsh
    · rfl
    · rfl
    · exact absurd (le_of_eq ht) hsh
  have hzero : ((sell s).1).shares = 0 := by
    rw [h1, evaluateTrade_shares]
  refine ⟨?_, hzero, h2, h1, hnoop, hnoop _ hzero⟩
  rw [h1, evaluateTrade_balance]

/-- Witness for sell_full_liquidation at the concrete one-share state: the
position is fully closed and a second sell is a no-op. -/
theorem sell_full_liquidation_witness :
    oddPriceState.canTrade = true ∧ (0 : ℤ) < oddPriceState.shares ∧
    ((sell oddPriceState).1).shares = 0 ∧
    sell ((sell oddPriceState).1) = ((sell oddPriceState).1, none) :=
  ⟨rfl, by decide, (sell_full_liquidation oddPriceState rfl (by decide)).2.1,
    (sell_full_liquidation oddPriceState rfl (by decide)).2.2.2.2.2⟩

theorem addXp_level_mono (a : ℚ) (s : GameState) : s.level ≤ (addXp a s).level := by
  simp only [addXp]
  split_ifs
  · exact Nat.le_succ _
  · exact le_refl _

theorem evaluateTrade_level_mono (p : ℚ) (s : GameState) :
    s.level ≤ (evaluateTrade p s).level := by
  simp only [evaluateTrade]
  split_ifs <;> exact addXp_level_mono _ _

theorem le_evaluateTrade_level (p : ℚ) (t : GameState) (l : ℕ) (h : l ≤ t.level) :
    l ≤ (evaluateTrade p t).level :=
  le_trans h (evaluateTrade_level_mono p t)

theorem sell_level_mono (s : GameState) : s.level ≤ ((sell s).1).level := by
  simp only [sell]
  split_ifs
  · exact le_refl _
  · exact le_refl _
  · exact le_evaluateTrade_level _ _ _ (le_refl _)

theorem switchRegime_level (g : ℕ → ℚ) (s : GameState) :
    ((switchRegime g s).1).level = s.level := by
  simp only [switchRegime]
  split_ifs <;> rfl

theorem priceMove_level (g : ℕ → ℚ) (s : GameState) :
    ((priceMove g s).1).level = s.level := rfl

theorem updateMarketLogic_level (g : ℕ → ℚ) (s : GameState) :
    ((updateMarketLogic g s).1).level = s.level := by
  simp only [updateMarketLogic, priceMove_level]
  split_ifs <;> simp [switchRegime_level]

theorem pushPrice_level (s : GameState) : (pushPrice s).level = s.level := by
  simp only [pushPrice]
  split_ifs <;> rfl

theorem runAutoStrategy_level_mono (s : GameState) :
    s.level ≤ ((runAutoStrategy s).1).level := by
  simp only [runAutoStrategy]
  split_ifs <;>
    first
      | exact le_refl _
      | exact le_of_eq (buy_level s).symm
      | exact sell_level_mono s

theorem gameTick_level_mono (g : ℕ → ℚ) (s : GameState) :
    s.level ≤ ((gameTick g s).1).level := by
  simp only [gameTick]
  have hbase : (pushPrice ((updateMarketLogic g s).1)).level = s.level := by
    rw [pushPrice_level, updateMarketLogic_level]
  split_ifs
  · calc s.level = (pushPrice ((updateMarketLogic g s).1)).level := hbase.symm
      _ ≤ _ := runAutoStrategy_level_mono _
  · exact le_of_eq hbase.symm

/-- C9: a winning trade awards max(10, floor(profit × 0.1)) XP, a losing one
awards 5; the level never decreases under any modelled operation; and on
every level-up the xp is reset to 0 (remainder discarded) while nextLevelXp
is multiplied by exactly 1.5 and the level steps up by one. -/
theorem progression_rules :
    (∀ (profit : ℚ) (s : GameState), 0 < profit →
      evaluateTrade profit s = addXp ((max 10 ⌊profit * 0.1⌋ : ℤ) : ℚ) s) ∧
    (∀ (profit : ℚ) (s : GameState), profit ≤ 0 → evaluateTrade profit s = addXp 5 s) ∧
    (∀ (a : ℚ) (s : GameState), s.level ≤ (addXp a s).level) ∧
    (∀ (p : ℚ) (s : GameState), s.level ≤ (evaluateTrade p s).level) ∧
    (∀ s : GameState, s.level ≤ ((sell s).1).level) ∧
    (∀ s : GameState, s.level ≤ (buy s).level) ∧
    (∀ (g : ℕ → ℚ) (s : GameState), s.level ≤ ((updateMarketLogic g s).1).level) ∧
    (∀ s : GameState, s.level ≤ ((runAutoStrategy s).1).level) ∧
    (∀ (g : ℕ → ℚ) (s : GameState), s.level ≤ ((gameTick g s).1).level) ∧
    (∀ (a : ℚ) (s : GameState), s.nextLevelXp ≤ s.xp + a →
      (addXp a s).level = s.level + 1 ∧ (addXp a s).xp = 0 ∧
      (addXp a s).nextLevelXp = s.nextLevelXp * 1.5) := by
  refine ⟨fun profit s h => ?_, fun profit s h => ?_, addXp_level_mono,
    evaluateTrade_level_mono, sell_level_mono,
    fun s => le_of_eq (buy_level s).symm,
    fun g s => le_of_eq (updateMarketLogic_level g s).symm,
    runAutoStrategy_level_mono, gameTick_level_mono, fun a s h => ?_⟩
  · simp only [evaluateTrade]
    rw [if_pos h]
  · simp only [evaluateTrade]
    rw [if_neg (not_lt.mpr h)]
  · simp only [addXp]
    rw [if_pos (by exact h)]
    exact ⟨rfl, rfl, rfl⟩

/-- Witness for progression_rules: profit 200 awards max(10, 20) XP from the
initial state, a loss awards 5, and a 1000-XP award from the initial state
levels up to level 2 with xp reset to 0 and threshold 1500. -/
theorem progression_rules_witness :
    (0 : ℚ) < 200 ∧
    evaluateTrade 200 initialState = addXp ((max 10 ⌊(200 : ℚ) * 0.1⌋ : ℤ) : ℚ) initialState ∧
    (-3 : ℚ) ≤ 0 ∧
    evaluateTrade (-3) initialState = addXp 5 initialState ∧
    initialState.nextLevelXp ≤ initialState.xp + 1000 ∧
    (addXp 1000 initialState).level = initialState.level + 1 ∧
    (addXp 1000 initialState).xp = 0 ∧
    (addXp 1000 initialState).nextLevelXp = initialState.nextLevelXp * 1.5 :=
  ⟨by norm_num, progression_rules.1 200 initialState (by norm_num),
    by norm_num, progression_rules.2.1 (-3) initialState (by norm_num),
    by norm_num [initialState],
    (progression_rules.2.2.2.2.2.2.2.2.2 1000 initialState (by norm_num [initialState])).1,
    (progression_rules.2.2.2.2.2.2.2.2.2 1000 initialState (by norm_num [initialState])).2.1,
    (progression_rules.2.2.2.2.2.2.2.2.2 1000 initialState (by norm_num [initialState])).2.2⟩

theorem floor_mul_price_le (b p : ℚ) (hp : 0 < p) : (⌊b / p⌋ : ℚ) * p ≤ b := by
  calc (⌊b / p⌋ : ℚ) * p ≤ (b / p) * p :=
        mul_le_mul_of_nonneg_right (Int.floor_le _) hp.le
    _ = b := div_mul_cancel₀ b hp.ne'

theorem buySlider_noop (pct : ℚ) (s : GameState)
    (h : s.canTrade = false ∨ ⌊s.balance * pct / s.currentPrice⌋ ≤ 0) :
    buySlider pct s = s := by
  simp only [buySlider]
  rcases h with h | h
  · rw [if_pos h]
  · split_ifs <;> rfl

theorem buySlider_success (pct : ℚ) (s : GameState) (hc : s.canTrade = true)
    (hamt : 0 < ⌊s.balance * pct / s.currentPrice⌋) :
    buySlider pct s = { s with
      balance := s.balance - (⌊s.balance * pct / s.currentPrice⌋ : ℚ) * s.currentPrice,
      shares := s.shares + ⌊s.balance * pct / s.currentPrice⌋,
      avgCost := ((s.shares : ℚ) * s.avgCost +
          (⌊s.balance * pct / s.currentPrice⌋ : ℚ) * s.currentPrice) /
        ((s.shares + ⌊s.balance * pct / s.currentPrice⌋ : ℤ) : ℚ) } := by
  simp only [buySlider]
  rw [if_neg (by simp [hc]), if_neg (not_le.mpr hamt)]

/-- C10: a buy either leaves the state untouched (trading not permitted, or
computed amount not positive) or debits exactly amount × price where amount
is the floor of availableBalance/price; in exact arithmetic the debit never
exceeds the available balance, so a nonnegative balance stays nonnegative —
for the full-balance buy of src/app.js and the slider buy of
src/unnamed/part_000 with any fraction pct in [0, 1]. -/
theorem buy_balance_safety (s : GameState) (pct : ℚ)
    (hp : 0 < s.currentPrice) (_hpct0 : 0 ≤ pct) (hpct1 : pct ≤ 1) :
    ((s.canTrade = false ∨ ⌊s.balance / s.currentPrice⌋ ≤ 0) → buy s = s) ∧
    (s.canTrade = true → 0 < ⌊s.balance / s.currentPrice⌋ →
      (buy s).balance = s.balance - (⌊s.balance / s.currentPrice⌋ : ℚ) * s.currentPrice) ∧
    (0 ≤ s.balance → 0 ≤ (buy s).balance) ∧
    ((s.canTrade = false ∨ ⌊s.balance * pct / s.currentPrice⌋ ≤ 0) → buySlider pct s = s) ∧
    (s.canTrade = true → 0 < ⌊s.balance * pct / s.currentPrice⌋ →
      (buySlider pct s).balance =
        s.balance - (⌊s.balance * pct / s.currentPrice⌋ : ℚ) * s.currentPrice) ∧
    (0 ≤ s.balance → 0 ≤ (buySlider pct s).balance) := by
  refine ⟨buy_noop s, fun hc hamt => ?_, fun hb => ?_, buySlider_noop pct s,
    fun hc hamt => ?_, fun hb => ?_⟩
  · rw [buy_success s hc hamt]
  · by_cases hc : s.canTrade = true
    · by_cases hamt : 0 < ⌊s.balance / s.currentPrice⌋
      · rw [buy_success s hc hamt]
        have := floor_mul_price_le s.balance s.currentPrice hp
        simp only
        linarith
      · rw [buy_noop s (Or.inr (not_lt.mp hamt))]
        exact hb
    · rw [buy_noop s (Or.inl (by revert hc; cases s.canTrade <;> simp))]
      exact hb
  · rw [buySlider_success pct s hc hamt]
  · by_cases hc : s.canTrade = true
    · by_cases hamt : 0 < ⌊s.balance * pct / s.currentPrice⌋
      · rw [buySlider_success pct s hc hamt]
        have h1 := floor_mul_price_le (s.balance * pct) s.currentPrice hp
        have h2 : s.balance * pct ≤ s.balance := by nlinarith
        simp only
        linarith
      · rw [buySlider_noop pct s (Or.inr (not_lt.mp hamt))]
        exact hb
    · rw [buySlider_noop pct s (Or.inl (by revert hc; cases s.canTrade <;> simp))]
      exact hb

/-- Witness for buy_balance_safety from the trade-permitted initial state
(balance 100, price 100) with fraction 1/2: balances stay nonnegative and the
full-balance buy debits exactly 1 × 100. -/
theorem buy_balance_safety_witness :
    (0 : ℚ) < flatStart.currentPrice ∧ (0 : ℚ) ≤ 1 / 2 ∧ (1 : ℚ) / 2 ≤ 1 ∧
    flatStart.canTrade = true ∧ 0 < ⌊flatStart.balance / flatStart.currentPrice⌋ ∧
    (buy flatStart).balance =
      flatStart.balance - (⌊flatStart.balance / flatStart.currentPrice⌋ : ℚ) *
        flatStart.currentPrice ∧
    (0 ≤ flatStart.balance → 0 ≤ (buy flatStart).balance) ∧
    (0 ≤ flatStart.balance → 0 ≤ (buySlider (1 / 2) flatStart).balance) :=
  ⟨by norm_num [flatStart, initialState], by norm_num, by norm_num, rfl,
    by norm_num [flatStart, initialState],
    (buy_balance_safety flatStart (1 / 2) (by norm_num [flatStart, initialState])
        (by norm_num) (by norm_num)).2.1 rfl (by norm_num [flatStart, initialState]),
    (buy_balance_safety flatStart (1 / 2) (by norm_num [flatStart, initialState])
        (by norm_num) (by norm_num)).2.2.1,
    (buy_balance_safety flatStart (1 / 2) (by norm_num [flatStart, initialState])
        (by norm_num) (by norm_num)).2.2.2.2.2⟩

end SignalCraft
